import Mathlib

/-!
# TorchCraft replayer codec: a shallow embedding

Embedding of `replayer/replayer.cpp` (the replay stream codec, the packed
map store, and the frame diff engine interface) as executable Lean
definitions, plus theorems checking the natural-language specification
against it.

Modelling conventions:
* The C++ stream is modelled at token level: formatted integer writes
  (`out << n`) become `Token.int` items; the single raw-byte region of the
  map becomes a `Token.raw` block; the externally defined `Frame` and
  `FrameDiff` serializations (their code is not part of this core) become
  opaque `Token.frame` / `Token.fdiff` items, faithful to the spec's
  contract that frames "support full serialization and deserialization".
* C++11 istream semantics are modelled explicitly with a `fail` bit:
  a failed extraction (end of stream or malformed token) sets the fail
  bit and zero-fills the target, and every later extraction is a no-op.
  The two `throw std::runtime_error` sites become `Except.error`.
* `THByteTensor` is, per the spec, "purely a 2D byte buffer": a tensor of
  sizes `(w, h)` becomes a `List Nat` of length `w*h`, with
  `fastGet2d/fastSet2d (x, y)` at linear index `x * h + y`.
* Machine integers (`int32_t`, `int`) become `Int`; `size_t` reads
  (`nFrames`) are modelled with `Int.toNat`, which agrees with the C++
  behaviour on the non-negative values the claims are about.
-/

namespace TorchcraftReplayer

/-- Modelled from the spec: the `Frame` record itself is external
to this core ("an opaque, externally-defined record (unit states,
commands, etc.)"); we model it as the vector of its per-entity integer
states, where "compatible shape" means equal length. -/
abbrev Frame := List Int

/-- Modelled from the spec: a `FrameDiff` is "the delta representation
between two Frames"; per entity, either `none` (unchanged, the temporal
redundancy the format exploits) or `some v` (the entity's new state). -/
abbrev FrameDiff := List (Option Int)

/-- Modelled from the spec: `replayer::frame_diff` (its code is not part
of this core) computes "a structural delta between two frames of
identical shape": entity-wise, record nothing when the state is
unchanged and the new state when it changed. -/
def frame_diff (curr prev : Frame) : FrameDiff :=
  List.zipWith (fun c p => if c = p then none else some c) curr prev

/-- Modelled from the spec: `replayer::frame_undiff` (its code is not
part of this core) "reconstructs a frame from a base frame plus a
delta": entity-wise, take the recorded new state if present, otherwise
keep the base frame's state. -/
def frame_undiff (d : FrameDiff) (prev : Frame) : Frame :=
  List.zipWith (fun o p => o.getD p) d prev

/-- The map of a Replayer: a `THByteTensor` of sizes `(width, height)`
viewed as its raw byte buffer, entry `(x, y)` at index `x * height + y`. -/
structure RMap where
  width : Int
  height : Int
  data : List Nat
deriving DecidableEq, Repr

/-- The `Replayer` container: map, keyframe interval, owned frame
sequence, and the ordered `std::map<int32_t, int32_t> numUnits`
(modelled as its strictly-key-sorted association list). -/
structure Replayer where
  map : RMap
  keyframe : Int
  frames : List Frame
  numUnits : List (Int × Int)
deriving DecidableEq, Repr

/-- A freshly constructed `Replayer` (no frames, empty `numUnits`). -/
def emptyReplayer : Replayer :=
  { map := { width := 0, height := 0, data := [] },
    keyframe := 0, frames := [], numUnits := [] }

/-- One item of the serialized stream: a formatted integer token, the raw
map-byte region, or an (externally serialized) frame or frame diff. -/
inductive Token where
  | int (n : Int)
  | raw (bs : List Nat)
  | frame (f : Frame)
  | fdiff (d : FrameDiff)
deriving DecidableEq, Repr

/-- An input stream: remaining tokens plus the C++ stream's fail bit
(set on a failed extraction; once set, all later extractions no-op). -/
structure IStream where
  toks : List Token
  fail : Bool
deriving DecidableEq, Repr

/-- Formatted extraction `in >> n` of an integer: on an already-failed
stream or a stream not
positioned at an integer token, set the fail bit and zero-fill the
target (C++11 semantics). -/
def readInt (st : IStream) : Int × IStream :=
  if st.fail then (0, st)
  else match st.toks with
    | Token.int n :: rest => (n, { toks := rest, fail := false })
    | _ => (0, { st with fail := true })

/-- Extraction `in >> *frame`: the external `Frame` deserialization, consuming one
opaque frame token; zero-fills (default frame) on failure. -/
def readFrame (st : IStream) : Frame × IStream :=
  if st.fail then (([] : List Int), st)
  else match st.toks with
    | Token.frame f :: rest => (f, { toks := rest, fail := false })
    | _ => (([] : List Int), { st with fail := true })

/-- Extraction `in >> du`: the external `FrameDiff` deserialization, consuming one
opaque diff token; zero-fills (empty diff) on failure. -/
def readFDiff (st : IStream) : FrameDiff × IStream :=
  if st.fail then (([] : List (Option Int)), st)
  else match st.toks with
    | Token.fdiff d :: rest => (d, { toks := rest, fail := false })
    | _ => (([] : List (Option Int)), { st with fail := true })

/-- Raw read `in.read((char*)data, n)`: the raw map-byte region. At token level
the region is one `Token.raw` block; the read succeeds exactly when the
block holds exactly `n` bytes, otherwise it fails and the buffer is the
zero-filled fresh allocation. -/
def readRaw (n : Nat) (st : IStream) : List Nat × IStream :=
  if st.fail then (List.replicate n 0, st)
  else match st.toks with
    | Token.raw bs :: rest =>
        if bs.length = n then (bs, { toks := rest, fail := false })
        else (List.replicate n 0, { st with fail := true })
    | _ => (List.replicate n 0, { st with fail := true })

/-- Line 63, `in.ignore(1)`: skips the single delimiter byte between the printed
`height` token and the raw region; delimiters are not tokens here, so
this is the identity on the token stream. -/
def ignore1 (st : IStream) : IStream := st

/-- Line 28: `auto kf = o.keyframe == 0 ? 1 : o.keyframe`. -/
def effKeyframe (kf : Int) : Int := if kf = 0 then 1 else kf

/-- Line 31: the writer's branch — position `i` is written as a full
frame iff `i % kf == 0` with `kf` the effective keyframe interval. -/
def writerIsFull (kf : Int) (i : Nat) : Bool := (i : Int) % effKeyframe kf == 0

/-- Lines 70/75: the reader's branch — position `i` is deserialized as a
full frame iff `o.keyframe == 0`, or else `i % o.keyframe == 0`. -/
def readerIsFull (kf : Int) (i : Nat) : Bool := kf == 0 || (i : Int) % kf == 0

/-- Access `o.frames[i]` (with the C++ out-of-bounds access defaulted). -/
def frameAt (frames : List Frame) (i : Nat) : Frame := frames.getD i ([] : List Int)

/-- Lines 30–33: the writer's frame loop, emitting one token per
position, from position `i` with `r` positions remaining:
full serialization at keyframe positions, else
`frame_diff(frames[i], frames[i-1])`. -/
def writeFramesAux (kf : Int) (frames : List Frame) : Nat → Nat → List Token
  | 0, _ => []
  | r + 1, i =>
      (if writerIsFull kf i then Token.frame (frameAt frames i)
       else Token.fdiff (frame_diff (frameAt frames i) (frameAt frames (i - 1))))
      :: writeFramesAux kf frames r (i + 1)

/-- The whole frame section of the written stream. -/
def writeFrames (kf : Int) (frames : List Frame) : List Token :=
  writeFramesAux kf frames frames.length 0

/-- Lines 35–38: the `numUnits` section of the written stream: each
`(key, value)` pair as two integer tokens, in `std::map` iteration
(key) order. -/
def pairTokens (ps : List (Int × Int)) : List Token :=
  ps.flatMap (fun p => [Token.int p.1, Token.int p.2])

/-- Lines 17–41: `operator<<(ostream, const Replayer&)` as the token
list it emits: optional `0 keyframe` marker header, `width height`, the
raw packed-map bytes, the frame count and frame section, then the
`numUnits` size and its `(key, value)` pairs in `std::map` key order. -/
def writeReplayer (o : Replayer) : List Token :=
  (if o.keyframe ≠ 0 then [Token.int 0, Token.int o.keyframe] else [])
  ++ [Token.int o.map.width, Token.int o.map.height, Token.raw o.map.data,
      Token.int (o.frames.length : Int)]
  ++ writeFrames o.keyframe o.frames
  ++ [Token.int (o.numUnits.length : Int)]
  ++ pairTokens o.numUnits

/-- Lines 49–58: the reader's header: first integer `0` means an
explicit `keyframe width height` header follows; any other first integer
is already the width, the next is the height, and `keyframe` is set
to `0`. Returns `(keyframe, width, height, rest)`. (Line 59 recomputes
the `diffed` flag, but it is never read afterwards.) -/
def readHeader (st : IStream) : Int × Int × Int × IStream :=
  let (diffed, st1) := readInt st
  if diffed = 0 then
    let (kf, st2) := readInt st1
    let (w, st3) := readInt st2
    let (h, st4) := readInt st3
    (kf, w, h, st4)
  else
    let (h, st2) := readInt st1
    (0, diffed, h, st2)

/-- Lines 69–85: the reader's frame loop from position `i` with `r`
positions remaining and `acc` the slots populated so far: a full frame
is deserialized at keyframe positions; elsewhere a `FrameDiff` is read
and `frame_undiff` is applied to `frames[i-1]`, the last populated
slot. -/
def readFramesAux (kf : Int) : Nat → Nat → List Frame → IStream → List Frame × IStream
  | 0, _, acc, st => (acc, st)
  | r + 1, i, acc, st =>
      if readerIsFull kf i then
        let (f, st1) := readFrame st
        readFramesAux kf r (i + 1) (acc ++ [f]) st1
      else
        let (d, st1) := readFDiff st
        let prev := (acc.getLast?).getD ([] : List Int)
        readFramesAux kf r (i + 1) (acc ++ [frame_undiff d prev]) st1

/-- The reader's frame loop again, but returning `none` the moment the
diff branch would apply `frame_undiff` to a predecessor slot that was
never populated; used to state that the loop of lines 69–85 never does
so. -/
def readFramesChecked (kf : Int) :
    Nat → Nat → List Frame → IStream → Option (List Frame × IStream)
  | 0, _, acc, st => some (acc, st)
  | r + 1, i, acc, st =>
      if readerIsFull kf i then
        let (f, st1) := readFrame st
        readFramesChecked kf r (i + 1) (acc ++ [f]) st1
      else
        match acc.getLast? with
        | none => none
        | some prev =>
            let (d, st1) := readFDiff st
            readFramesChecked kf r (i + 1) (acc ++ [frame_undiff d prev]) st1

/-- Assignment `m[k] = v` of `std::map<int32_t,int32_t>` on the sorted
association list: sorted insert, overwriting an equal key. -/
def mapInsert : List (Int × Int) → Int → Int → List (Int × Int)
  | [], k, v => [(k, v)]
  | (k', v') :: rest, k, v =>
      if k < k' then (k, v) :: (k', v') :: rest
      else if k = k' then (k, v) :: rest
      else (k', v') :: mapInsert rest k v

/-- Lookup in the `std::map`, on the sorted association list. -/
def mapLookup (k : Int) : List (Int × Int) → Option Int
  | [] => none
  | (k', v') :: rest => if k = k' then some v' else mapLookup k rest

/-- Lines 92–95: read `s` `(key, value)` pairs, each assigned into the
`numUnits` mapping. -/
def readPairs : Nat → List (Int × Int) → IStream → List (Int × Int) × IStream
  | 0, nu, st => (nu, st)
  | n + 1, nu, st =>
      let (key, st1) := readInt st
      let (val, st2) := readInt st1
      readPairs n (mapInsert nu key val) st2

/-- Lines 87–95: the `numUnits` section: read the entry count `s`, throw
`"Corrupted replay: s < 0"` when negative, else read exactly `s`
pairs. -/
def readNumUnits (nu : List (Int × Int)) (st : IStream) :
    Except String (List (Int × Int) × IStream) :=
  let (s, st1) := readInt st
  if s < 0 then Except.error "Corrupted replay: s < 0"
  else Except.ok (readPairs s.toNat nu st1)

/-- Lines 43–98: `operator>>(istream, Replayer&)` on the token stream:
header, map-size validation (throwing `"Corrupted replay: invalid map
size"`), raw map bytes installed via `setRawMap`, the frame loop, then
the `numUnits` section. `o` is the `Replayer` being read into. -/
def readReplayer (o : Replayer) (st : IStream) : Except String (Replayer × IStream) :=
  let (kf, w, h, st1) := readHeader st
  if h ≤ 0 ∨ w ≤ 0 then Except.error "Corrupted replay: invalid map size"
  else
    let (data, st2) := readRaw (h * w).toNat (ignore1 st1)
    let (nFrames, st3) := readInt st2
    let (frames, st4) := readFramesAux kf nFrames.toNat 0 [] st3
    match readNumUnits o.numUnits st4 with
    | Except.error e => Except.error e
    | Except.ok (nu, st5) =>
        Except.ok ({ map := { width := w, height := h, data := data },
                     keyframe := kf, frames := frames, numUnits := nu }, st5)

/-- Lines 118–122 and 139–141: the packed-tile byte:
`(walkability & 1) << 0 | (buildability & 1) << 1 | (ground_height & 0b111) << 2`. -/
def packTile (walk build gh : Nat) : Nat :=
  ((walk &&& 1) <<< 0) ||| ((build &&& 1) <<< 1) ||| ((gh &&& 7) <<< 2)

/-- Lines 145–150: the second pass of `setMap`, OR-ing the
start-location bit (`1 << 5`) into the tile at each `(x, y)` drawn in
step from `start_loc_x` / `start_loc_y`. -/
def applyStartLocs (h : Nat) (locs : List (Nat × Nat)) (d : List Nat) : List Nat :=
  locs.foldl
    (fun d p => d.set (p.1 * h + p.2) ((d.getD (p.1 * h + p.2) 0) ||| (1 <<< 5))) d

/-- Lines 125–151: `Replayer::setMap(w, h, walkability, ground_height,
buildability, start_loc_x, start_loc_y)` as the byte buffer it installs:
for each `x < w`, `y < h`, tile `x*h + y` packs the (transposed-layout)
inputs read at index `x*h + y`; then the start-location pass. The input
arrays are given as functions from linear index to byte. -/
def setMapData (w h : Nat) (walk gh build : Nat → Nat)
    (slx sly : List Nat) : List Nat :=
  let base := (List.range (w * h)).map (fun idx => packTile (walk idx) (build idx) (gh idx))
  applyStartLocs h (slx.zip sly) base

/-- Lines 166–168: `getMap`'s per-tile extraction of one field,
`(v >> shift) & mask`, over the whole packed buffer. -/
def getMapField (shift mask : Nat) (data : List Nat) : List Nat :=
  data.map (fun v => (v >>> shift) &&& mask)

/-- Line 169: the decoded start-location test of one packed byte. -/
def startBit (v : Nat) : Bool := (v >>> 5) &&& 1 == 1

/-- Lines 153–175: the start-location part of `getMap`: the two output
vectors are cleared (so the prior contents `slx0`, `sly0` are dropped),
then the grid is traversed x-outer, y-inner, pushing `(x, y)` whenever
the tile's start-location bit is set. -/
def getMapStartLocs (w h : Nat) (data : List Nat) (slx0 sly0 : List Nat) :
    List Nat × List Nat :=
  let cleared : List Nat × List Nat := ((fun _ => []) slx0, (fun _ => []) sly0)
  (List.range w).foldl
    (fun acc x =>
      (List.range h).foldl
        (fun acc y =>
          if startBit (data.getD (x * h + y) 0) then (acc.1 ++ [x], acc.2 ++ [y])
          else acc)
        acc)
    cleared

/-- The same traversal as `getMapStartLocs`, as the list of `(x, y)`
pairs: increasing x, then increasing y. -/
def startPairs (w h : Nat) (data : List Nat) : List (Nat × Nat) :=
  (List.range w).flatMap
    (fun x => (List.range h).filterMap
      (fun y => if startBit (data.getD (x * h + y) 0) then some (x, y) else none))

/-! ## The diff/undiff inverse law -/

/-- The engine's round-trip law, as a helper lemma shared by the stream
round-trip proof. -/
theorem undiff_diff (F P : Frame) (h : F.length = P.length) :
    frame_undiff (frame_diff F P) P = F := by
  unfold frame_diff frame_undiff
  induction F generalizing P with
  | nil => cases P <;> simp_all
  | cons c F ih =>
      cases P with
      | nil => simp at h
      | cons p P =>
          simp only [List.length_cons, Nat.succ.injEq] at h
          simp only [List.zipWith_cons_cons, List.cons.injEq]
          refine ⟨?_, ih P h⟩
          by_cases hc : c = p <;> simp [hc]

/-! ## Reader primitive lemmas -/

theorem readInt_cons (n : Int) (rest : List Token) :
    readInt ⟨Token.int n :: rest, false⟩ = (n, ⟨rest, false⟩) := rfl

theorem readFrame_cons (f : Frame) (rest : List Token) :
    readFrame ⟨Token.frame f :: rest, false⟩ = (f, ⟨rest, false⟩) := rfl

theorem readFDiff_cons (d : FrameDiff) (rest : List Token) :
    readFDiff ⟨Token.fdiff d :: rest, false⟩ = (d, ⟨rest, false⟩) := rfl

theorem readRaw_exact (bs : List Nat) (rest : List Token) :
    readRaw bs.length ⟨Token.raw bs :: rest, false⟩ = (bs, ⟨rest, false⟩) := by
  simp [readRaw]

theorem readHeader_marker (k w h : Int) (rest : List Token) :
    readHeader ⟨Token.int 0 :: Token.int k :: Token.int w :: Token.int h :: rest, false⟩
      = (k, w, h, ⟨rest, false⟩) := rfl

theorem readHeader_nomarker (w h : Int) (rest : List Token) (hw : w ≠ 0) :
    readHeader ⟨Token.int w :: Token.int h :: rest, false⟩
      = (0, w, h, ⟨rest, false⟩) := by
  simp [readHeader, readInt, hw]

/-! ## The writer's and reader's keyframe roles agree -/

theorem writerIsFull_eq_readerIsFull (kf : Int) (i : Nat) :
    writerIsFull kf i = readerIsFull kf i := by
  unfold writerIsFull readerIsFull effKeyframe
  by_cases h : kf = 0 <;> simp [h, Int.emod_one]

theorem readerIsFull_zero (kf : Int) : readerIsFull kf 0 = true := by
  unfold readerIsFull
  simp [Int.zero_emod]

/-! ## Round trip of the frame section -/

theorem take_getLast?_eq (l : List Frame) (i : Nat) (h1 : 0 < i) (h2 : i ≤ l.length) :
    (l.take i).getLast? = some (frameAt l (i - 1)) := by
  have hi1 : i - 1 < l.length := by omega
  rw [List.getLast?_eq_getElem? (l.take i)]
  have hlen : (l.take i).length = i := by
    rw [List.length_take]; omega
  rw [hlen, List.getElem?_take]
  have hlt : i - 1 < i := by omega
  rw [if_pos hlt, List.getElem?_eq_getElem hi1]
  unfold frameAt
  rw [List.getD_eq_getElem l _ hi1]

theorem take_succ_concat (l : List Frame) (i : Nat) (h : i < l.length) :
    l.take (i + 1) = l.take i ++ [frameAt l i] := by
  rw [List.take_succ, List.getElem?_eq_getElem h]
  unfold frameAt
  rw [List.getD_eq_getElem l _ h]
  rfl

theorem chain'_adjacent {frames : List Frame}
    (hc : List.Chain' (fun a b => b.length = a.length) frames)
    (j : Nat) (h2 : j + 1 < frames.length) :
    (frameAt frames (j + 1)).length = (frameAt frames j).length := by
  rw [List.chain'_iff_get] at hc
  have h := hc j (by omega)
  unfold frameAt
  rw [List.getD_eq_getElem frames _ h2, List.getD_eq_getElem frames _ (by omega : j < frames.length)]
  simpa [List.get_eq_getElem] using h

theorem readFramesAux_writeFramesAux (kf : Int) (frames : List Frame) (rest : List Token)
    (hc : List.Chain' (fun a b => b.length = a.length) frames) :
    ∀ r i, i + r = frames.length →
      readFramesAux kf r i (frames.take i) ⟨writeFramesAux kf frames r i ++ rest, false⟩
        = (frames, ⟨rest, false⟩) := by
  intro r
  induction r with
  | zero =>
      intro i hir
      simp only [Nat.add_zero] at hir
      simp [readFramesAux, writeFramesAux, hir]
  | succ r ih =>
      intro i hir
      have hi : i < frames.length := by omega
      unfold writeFramesAux readFramesAux
      rw [writerIsFull_eq_readerIsFull]
      by_cases hfull : readerIsFull kf i = true
      · rw [if_pos hfull, if_pos hfull]
        simp only [List.cons_append, readFrame_cons]
        rw [← take_succ_concat frames i hi]
        exact ih (i + 1) (by omega)
      · rw [if_neg hfull, if_neg hfull]
        have hi0 : 0 < i := by
          rcases Nat.eq_zero_or_pos i with h0 | h0
          · rw [h0, readerIsFull_zero] at hfull; simp at hfull
          · exact h0
        simp only [List.cons_append, readFDiff_cons]
        rw [take_getLast?_eq frames i hi0 (Nat.le_of_lt hi)]
        simp only [Option.getD_some]
        have hadj := chain'_adjacent hc (i - 1) (by omega)
        rw [Nat.sub_add_cancel hi0] at hadj
        rw [undiff_diff _ _ hadj]
        rw [← take_succ_concat frames i hi]
        exact ih (i + 1) (by omega)

theorem readFrames_writeFrames (kf : Int) (frames : List Frame) (rest : List Token)
    (hc : List.Chain' (fun a b => b.length = a.length) frames) :
    readFramesAux kf frames.length 0 [] ⟨writeFrames kf frames ++ rest, false⟩
      = (frames, ⟨rest, false⟩) := by
  have h := readFramesAux_writeFramesAux kf frames rest hc frames.length 0 (by omega)
  simpa [writeFrames] using h

/-! ## Round trip of the numUnits section -/

theorem mapInsert_append (nu : List (Int × Int)) (k v : Int)
    (h : ∀ q ∈ nu, q.1 < k) : mapInsert nu k v = nu ++ [(k, v)] := by
  induction nu with
  | nil => rfl
  | cons q rest ih =>
      obtain ⟨k', v'⟩ := q
      have hq : k' < k := h (k', v') (List.mem_cons_self _ _)
      unfold mapInsert
      rw [if_neg (by omega), if_neg (by omega)]
      simp only [List.cons_append, List.cons.injEq, true_and]
      exact ih (fun p hp => h p (List.mem_cons_of_mem _ hp))

theorem readPairs_sorted (rest : List Token) :
    ∀ ps nu, List.Pairwise (fun p q : Int × Int => p.1 < q.1) ps →
      (∀ q ∈ nu, ∀ p ∈ ps, q.1 < p.1) →
      readPairs ps.length nu ⟨pairTokens ps ++ rest, false⟩ = (nu ++ ps, ⟨rest, false⟩) := by
  intro ps
  induction ps with
  | nil =>
      intro nu _ _
      simp [readPairs, pairTokens]
  | cons p ps ih =>
      intro nu hsort hlt
      obtain ⟨k, v⟩ := p
      rw [List.pairwise_cons] at hsort
      have hmi : mapInsert nu k v = nu ++ [(k, v)] :=
        mapInsert_append nu k v (fun q hq => hlt q hq (k, v) (List.mem_cons_self _ _))
      have hstep :
          readPairs ((k, v) :: ps).length nu ⟨pairTokens ((k, v) :: ps) ++ rest, false⟩
            = readPairs ps.length (mapInsert nu k v) ⟨pairTokens ps ++ rest, false⟩ := by
        simp [readPairs, pairTokens, readInt]
      rw [hstep, hmi]
      have hlt' : ∀ q ∈ nu ++ [(k, v)], ∀ p ∈ ps, q.1 < p.1 := by
        intro q hq p hp
        rcases List.mem_append.mp hq with hq | hq
        · exact hlt q hq p (List.mem_cons_of_mem _ hp)
        · rcases List.mem_singleton.mp hq with rfl
          exact hsort.1 p hp
      rw [ih (nu ++ [(k, v)]) hsort.2 hlt']
      simp

/-! ## The full replay round trip -/

theorem readReplayer_unfold (o : Replayer) (st : IStream) (kf w h : Int) (st1 : IStream)
    (hhead : readHeader st = (kf, w, h, st1)) (hw : 0 < w) (hh : 0 < h) :
    readReplayer o st = (
      let (data, st2) := readRaw (h * w).toNat st1
      let (nFrames, st3) := readInt st2
      let (frames, st4) := readFramesAux kf nFrames.toNat 0 [] st3
      match readNumUnits o.numUnits st4 with
      | Except.error e => Except.error e
      | Except.ok (nu, st5) =>
          Except.ok ({ map := { width := w, height := h, data := data },
                       keyframe := kf, frames := frames, numUnits := nu }, st5)) := by
  unfold readReplayer
  rw [hhead]
  dsimp only
  rw [if_neg (by omega)]
  rfl

/-- C1: For every Replay `R` (map tiles, frame sequence after full
diff-chain reconstruction, and unit-count mapping) and every keyframe
setting in `{0, 1, 3, N}` (proved for every keyframe setting `≥ 0`),
decoding the byte stream produced by encoding `R` yields a Replay equal
to `R` field-for-field. The Replay is well-formed: positive map
dimensions, a map buffer of exactly `height * width` bytes, adjacent
frames of compatible shape, and the `std::map` key-sortedness of
`numUnits`. -/
theorem C1_replay_roundtrip (o : Replayer)
    (hw : 0 < o.map.width) (hh : 0 < o.map.height) (hkf : 0 ≤ o.keyframe)
    (hd : o.map.data.length = (o.map.height * o.map.width).toNat)
    (hfr : List.Chain' (fun a b => b.length = a.length) o.frames)
    (hnu : List.Pairwise (fun p q : Int × Int => p.1 < q.1) o.numUnits) :
    readReplayer emptyReplayer ⟨writeReplayer o, false⟩ = Except.ok (o, ⟨[], false⟩) := by
  obtain ⟨⟨w, h, data⟩, kf, frames, nu⟩ := o
  simp only at hw hh hkf hd hfr hnu
  have h5 : readNumUnits ([] : List (Int × Int))
      ⟨Token.int (nu.length : Int) :: pairTokens nu, false⟩
      = Except.ok (nu, ⟨[], false⟩) := by
    unfold readNumUnits
    rw [readInt_cons]
    dsimp only
    rw [if_neg (by omega), Int.toNat_natCast]
    have hp := readPairs_sorted ([] : List Token) nu [] hnu (by simp)
    rw [List.append_nil] at hp
    rw [hp]
    simp
  by_cases hkf0 : kf = 0
  · subst hkf0
    have hwrite : writeReplayer ⟨⟨w, h, data⟩, 0, frames, nu⟩
        = Token.int w :: Token.int h
          :: Token.raw data :: Token.int (frames.length : Int)
          :: (writeFrames 0 frames ++ (Token.int (nu.length : Int) :: pairTokens nu)) := by
      simp [writeReplayer]
    rw [hwrite]
    rw [readReplayer_unfold _ _ 0 w h
      ⟨Token.raw data :: Token.int (frames.length : Int)
        :: (writeFrames 0 frames ++ (Token.int (nu.length : Int) :: pairTokens nu)), false⟩
      (readHeader_nomarker w h _ (by omega)) hw hh]
    have h2 : readRaw (h * w).toNat
        ⟨Token.raw data :: Token.int (frames.length : Int)
          :: (writeFrames 0 frames ++ (Token.int (nu.length : Int) :: pairTokens nu)), false⟩
        = (data, ⟨Token.int (frames.length : Int)
            :: (writeFrames 0 frames ++ (Token.int (nu.length : Int) :: pairTokens nu)),
            false⟩) := by
      rw [show (h * w).toNat = data.length from hd.symm]
      exact readRaw_exact data _
    have h4 : readFramesAux 0 ((frames.length : Int)).toNat 0 []
        ⟨writeFrames 0 frames ++ (Token.int (nu.length : Int) :: pairTokens nu), false⟩
        = (frames, ⟨Token.int (nu.length : Int) :: pairTokens nu, false⟩) := by
      rw [Int.toNat_natCast]
      exact readFrames_writeFrames 0 frames _ hfr
    simp only [h2, readInt_cons, h4, emptyReplayer, h5]
  · have hwrite : writeReplayer ⟨⟨w, h, data⟩, kf, frames, nu⟩
        = Token.int 0 :: Token.int kf :: Token.int w :: Token.int h
          :: Token.raw data :: Token.int (frames.length : Int)
          :: (writeFrames kf frames ++ (Token.int (nu.length : Int) :: pairTokens nu)) := by
      simp [writeReplayer, hkf0]
    rw [hwrite]
    rw [readReplayer_unfold _ _ kf w h
      ⟨Token.raw data :: Token.int (frames.length : Int)
        :: (writeFrames kf frames ++ (Token.int (nu.length : Int) :: pairTokens nu)), false⟩
      (readHeader_marker kf w h _) hw hh]
    have h2 : readRaw (h * w).toNat
        ⟨Token.raw data :: Token.int (frames.length : Int)
          :: (writeFrames kf frames ++ (Token.int (nu.length : Int) :: pairTokens nu)), false⟩
        = (data, ⟨Token.int (frames.length : Int)
            :: (writeFrames kf frames ++ (Token.int (nu.length : Int) :: pairTokens nu)),
            false⟩) := by
      rw [show (h * w).toNat = data.length from hd.symm]
      exact readRaw_exact data _
    have h4 : readFramesAux kf ((frames.length : Int)).toNat 0 []
        ⟨writeFrames kf frames ++ (Token.int (nu.length : Int) :: pairTokens nu), false⟩
        = (frames, ⟨Token.int (nu.length : Int) :: pairTokens nu, false⟩) := by
      rw [Int.toNat_natCast]
      exact readFrames_writeFrames kf frames _ hfr
    simp only [h2, readInt_cons, h4, emptyReplayer, h5]

/-- Witness for C1 at a concrete Replay: keyframe 3, two frames of
compatible shape, a 1×2 map, and a two-entry unit-count mapping. -/
theorem C1_replay_roundtrip_witness :
    readReplayer emptyReplayer
      ⟨writeReplayer ⟨⟨1, 2, [5, 9]⟩, 3, [[4, 7], [4, 8]], [(1, 10), (2, 20)]⟩, false⟩
      = Except.ok (⟨⟨1, 2, [5, 9]⟩, 3, [[4, 7], [4, 8]], [(1, 10), (2, 20)]⟩,
          ⟨[], false⟩) :=
  C1_replay_roundtrip ⟨⟨1, 2, [5, 9]⟩, 3, [[4, 7], [4, 8]], [(1, 10), (2, 20)]⟩
    (by decide) (by decide) (by decide) (by decide)
    (by simp [List.chain'_cons, List.chain'_singleton]) (by decide)

/-! ## Claim C2: diff/undiff inverse law -/

/-- C2: For all pairs of Frames `(F, P)` of compatible shape (equal
entity vectors lengths), `undiff` applied to `diff(F, P)` and `P`
returns a Frame equal to `F`; i.e. `undiff` is the exact left inverse of
`diff`. -/
theorem C2_undiff_left_inverse (F P : Frame) (h : F.length = P.length) :
    frame_undiff (frame_diff F P) P = F :=
  undiff_diff F P h

/-- Witness for C2 at concrete frames `[3, 5, 7]` and `[3, 6, 7]`. -/
theorem C2_undiff_left_inverse_witness :
    frame_undiff (frame_diff [3, 5, 7] [3, 6, 7]) [3, 6, 7] = [3, 5, 7] :=
  C2_undiff_left_inverse [3, 5, 7] [3, 6, 7] (by decide)

/-! ## Claim C4: keyframe roles -/

/-- C4: Both the write and the read protocol treat position `i` as a
full Frame exactly when `i % effective_keyframe == 0` with
`effective_keyframe = keyframe == 0 ? 1 : keyframe`, and every other
position as a diff against its immediate predecessor; in particular
with `keyframe = 3` and `N = 7`, positions `{0, 3, 6}` are full frames
and positions `{1, 2, 4, 5}` are reconstructed via the diff chain from
the nearest preceding keyframe. -/
theorem C4_keyframe_roles (kf : Int) (i : Nat)
    (f0 f3 f6 : Frame) (d1 d2 d4 d5 : FrameDiff) :
    (writerIsFull kf i = readerIsFull kf i)
    ∧ (writerIsFull kf i = true ↔ (i : Int) % effKeyframe kf = 0)
    ∧ ((List.range 7).filter (fun j => readerIsFull 3 j) = [0, 3, 6])
    ∧ (readFramesAux 3 7 0 []
        ⟨[Token.frame f0, Token.fdiff d1, Token.fdiff d2, Token.frame f3,
          Token.fdiff d4, Token.fdiff d5, Token.frame f6], false⟩
        = ([f0, frame_undiff d1 f0, frame_undiff d2 (frame_undiff d1 f0), f3,
            frame_undiff d4 f3, frame_undiff d5 (frame_undiff d4 f3), f6],
           ⟨[], false⟩)) := by
  refine ⟨writerIsFull_eq_readerIsFull kf i, ?_, by decide, rfl⟩
  simp [writerIsFull]

/-! ## Claim C5: header format -/

/-- C5: The serialized stream begins, when `keyframe ≠ 0`, with the
marker token `0` followed by `keyframe`, `width`, `height`; when
`keyframe == 0`, with `width` followed by `height` directly; and the
reader inverts this exactly: a first integer equal to `0` causes it to
read `keyframe`, `width`, `height`, while any other first integer is
taken as `width`, the next as `height`, and `keyframe` is set to `0`. -/
theorem C5_header_format (o : Replayer) (k w h t : Int) (rest : List Token) :
    (o.keyframe ≠ 0 →
      (writeReplayer o).take 4
        = [Token.int 0, Token.int o.keyframe, Token.int o.map.width,
           Token.int o.map.height])
    ∧ (o.keyframe = 0 →
      (writeReplayer o).take 2 = [Token.int o.map.width, Token.int o.map.height])
    ∧ readHeader ⟨Token.int 0 :: Token.int k :: Token.int w :: Token.int h :: rest, false⟩
        = (k, w, h, ⟨rest, false⟩)
    ∧ (t ≠ 0 →
      readHeader ⟨Token.int t :: Token.int h :: rest, false⟩ = (0, t, h, ⟨rest, false⟩)) := by
  refine ⟨fun hk => ?_, fun hk => ?_, readHeader_marker k w h rest,
    fun ht => readHeader_nomarker t h rest ht⟩
  · simp [writeReplayer, hk]
  · simp [writeReplayer, hk]

/-- Witness for C5: the written header of a keyframe-3 replay, and the
reader on a markerless header. -/
theorem C5_header_format_witness :
    (writeReplayer ⟨⟨2, 2, [1, 2, 3, 4]⟩, 3, [], []⟩).take 4
      = [Token.int 0, Token.int 3, Token.int 2, Token.int 2]
    ∧ readHeader ⟨[Token.int 5, Token.int 4], false⟩ = (0, 5, 4, ⟨[], false⟩) :=
  ⟨(C5_header_format ⟨⟨2, 2, [1, 2, 3, 4]⟩, 3, [], []⟩ 0 0 0 0 []).1 (by decide),
   (C5_header_format ⟨⟨2, 2, [1, 2, 3, 4]⟩, 3, [], []⟩ 0 0 4 5 []).2.2.2 (by decide)⟩

/-! ## Claim C6: invalid map size -/

/-- C6: During decoding, if the map dimensions read from the stream
satisfy `width ≤ 0` or `height ≤ 0`, the read fails fatally with the
error message `"Corrupted replay: invalid map size"` and no Map is
produced — the `Except.error` result carries no Replayer, and the check
precedes the map-buffer allocation and `setRawMap` in the source. -/
theorem C6_invalid_map_size (o : Replayer) (st st1 : IStream) (kf w h : Int)
    (hhead : readHeader st = (kf, w, h, st1)) (hbad : w ≤ 0 ∨ h ≤ 0) :
    readReplayer o st = Except.error "Corrupted replay: invalid map size" := by
  unfold readReplayer
  rw [hhead]
  dsimp only
  rw [if_pos (by omega)]

/-- Witness for C6 on the concrete stream `0 3 0 5` (marker, keyframe 3,
width 0, height 5). -/
theorem C6_invalid_map_size_witness :
    readReplayer emptyReplayer
      ⟨[Token.int 0, Token.int 3, Token.int 0, Token.int 5], false⟩
      = Except.error "Corrupted replay: invalid map size" :=
  C6_invalid_map_size emptyReplayer _ ⟨[], false⟩ 3 0 5 rfl (Or.inl (by decide))

/-! ## Claim C7: the numUnits section -/

theorem readPairs_spec (rest : List Token) :
    ∀ ps nu, readPairs ps.length nu ⟨pairTokens ps ++ rest, false⟩
      = (ps.foldl (fun m p => mapInsert m p.1 p.2) nu, ⟨rest, false⟩) := by
  intro ps
  induction ps with
  | nil => intro nu; simp [readPairs, pairTokens]
  | cons p ps ih =>
      intro nu
      obtain ⟨k, v⟩ := p
      have hstep :
          readPairs ((k, v) :: ps).length nu ⟨pairTokens ((k, v) :: ps) ++ rest, false⟩
            = readPairs ps.length (mapInsert nu k v) ⟨pairTokens ps ++ rest, false⟩ := by
        simp [readPairs, pairTokens, readInt]
      rw [hstep, ih]
      rfl

theorem mapInsert_overwrite (k v1 v2 : Int) :
    ∀ m, mapInsert (mapInsert m k v1) k v2 = mapInsert m k v2 := by
  intro m
  induction m with
  | nil => simp [mapInsert]
  | cons q m ih =>
      obtain ⟨k', v'⟩ := q
      by_cases h1 : k < k'
      · simp [mapInsert, h1]
      · by_cases h2 : k = k'
        · simp [mapInsert, h1, h2]
        · simp [mapInsert, h1, h2, ih]

theorem mapLookup_mapInsert (k v : Int) :
    ∀ m, mapLookup k (mapInsert m k v) = some v := by
  intro m
  induction m with
  | nil => simp [mapInsert, mapLookup]
  | cons q m ih =>
      obtain ⟨k', v'⟩ := q
      by_cases h1 : k < k'
      · simp [mapInsert, mapLookup, h1]
      · by_cases h2 : k = k'
        · simp [mapInsert, mapLookup, h1, h2]
        · simp [mapInsert, mapLookup, h1, h2, ih]

/-- C7: During decoding, if the unit-count entry count `s` read from the
stream is negative, the read fails fatally with
`"Corrupted replay: s < 0"` before any `(key, value)` entry is read (the
rest of the stream — even one holding entries — is untouched, and the
`Except.error` result discards the mapping unchanged); otherwise exactly
`s` pairs are read (the stream remainder after them is preserved), and a
later occurrence of the same key overwrites the earlier one in the
decoded mapping. -/
theorem C7_numunits_section (nu0 m : List (Int × Int)) (s k v1 v2 : Int)
    (ps : List (Int × Int)) (rest : List Token) :
    (s < 0 →
      readNumUnits nu0 ⟨Token.int s :: rest, false⟩
        = Except.error "Corrupted replay: s < 0")
    ∧ readNumUnits nu0 ⟨Token.int (ps.length : Int) :: (pairTokens ps ++ rest), false⟩
        = Except.ok (ps.foldl (fun m p => mapInsert m p.1 p.2) nu0, ⟨rest, false⟩)
    ∧ mapInsert (mapInsert m k v1) k v2 = mapInsert m k v2
    ∧ mapLookup k (mapInsert m k v2) = some v2 := by
  refine ⟨fun hs => ?_, ?_, mapInsert_overwrite k v1 v2 m, mapLookup_mapInsert k v2 m⟩
  · unfold readNumUnits
    rw [readInt_cons]
    dsimp only
    rw [if_pos hs]
  · unfold readNumUnits
    rw [readInt_cons]
    dsimp only
    rw [if_neg (by omega), Int.toNat_natCast, readPairs_spec rest ps nu0]

/-- Witness for C7: entry count `-1` aborts; a duplicated key `5` keeps
the later value `2`. -/
theorem C7_numunits_section_witness :
    readNumUnits [] ⟨Token.int (-1) :: (pairTokens [(5, 1), (5, 2)] ++ []), false⟩
      = Except.error "Corrupted replay: s < 0"
    ∧ readNumUnits [] ⟨Token.int 2 :: (pairTokens [(5, 1), (5, 2)] ++ []), false⟩
        = Except.ok ([(5, 2)], ⟨[], false⟩) := by
  have h := C7_numunits_section [] [] (-1) 5 1 2 [(5, 1), (5, 2)] []
  exact ⟨h.1 (by decide), by simpa [mapInsert] using h.2.1⟩

/-! ## Claim C8: truncated streams -/

/-- C8 (refuted — the code, not the claim, is at fault): a stream
holding a valid header and map region but nothing after it (EOF before
the frame count) is NOT surfaced as an error: the failed `in >> nFrames`
and `in >> s` extractions zero-fill (C++11 istream semantics), no stream
state is ever checked, and the read completes silently with a Replay of
zero frames and an empty `numUnits` — exactly the silent default-valued
completion the claim rules out. The final stream state records the fail
bit that the code never looks at. -/
theorem C8_truncation_not_detected :
    readReplayer emptyReplayer
      ⟨[Token.int 2, Token.int 2, Token.raw [0, 0, 0, 0]], false⟩
      = Except.ok (⟨⟨2, 2, [0, 0, 0, 0]⟩, 0, [], []⟩, ⟨[], true⟩) := rfl

/-! ## Claim C9: predecessor slots are always populated -/

theorem readFramesChecked_eq (kf : Int) :
    ∀ r i acc st, acc.length = i →
      readFramesChecked kf r i acc st = some (readFramesAux kf r i acc st) := by
  intro r
  induction r with
  | zero => intro i acc st _; rfl
  | succ r ih =>
      intro i acc st hlen
      unfold readFramesChecked readFramesAux
      by_cases hfull : readerIsFull kf i = true
      · rw [if_pos hfull, if_pos hfull]
        exact ih (i + 1) _ _ (by simp [hlen])
      · rw [if_neg hfull, if_neg hfull]
        have hi0 : 0 < i := by
          rcases Nat.eq_zero_or_pos i with h0 | h0
          · rw [h0, readerIsFull_zero] at hfull; simp at hfull
          · exact h0
        have hne : acc ≠ [] := by
          intro hnil
          rw [hnil] at hlen
          simp at hlen
          omega
        cases hl : acc.getLast? with
        | none =>
            exact absurd (List.getLast?_eq_none_iff.mp hl) hne
        | some prev =>
            simp only [Option.getD_some]
            exact ih (i + 1) _ _ (by simp [hlen])

/-- C9: In the decoder's frame loop, position 0 always satisfies the
keyframe condition (`0 % effective_keyframe == 0`) and is deserialized
as a full Frame, so `frame_undiff` is only ever invoked at positions
`i ≥ 1` whose predecessor slot `frames[i-1]` was populated in an
earlier iteration: the checked loop, which aborts on any unpopulated
predecessor access, never aborts and computes exactly what the code's
loop computes. -/
theorem C9_predecessor_always_populated (kf : Int) (n : Nat) (st : IStream) :
    readerIsFull kf 0 = true
    ∧ readFramesChecked kf n 0 [] st = some (readFramesAux kf n 0 [] st) :=
  ⟨readerIsFull_zero kf, readFramesChecked_eq kf n 0 [] st rfl⟩

/-! ## Claim C3: map packing -/

theorem and_one_of_lt_two (a : Nat) (h : a < 2) : a &&& 1 = a := by
  interval_cases a <;> decide

theorem and_seven_of_lt_eight (a : Nat) (h : a < 8) : a &&& 7 = a := by
  interval_cases a <;> decide

theorem pack_extract (vw vb vg s : Nat)
    (h1 : vw < 2) (h2 : vb < 2) (h3 : vg < 8) (h4 : s < 2) :
    ((vw <<< 0 ||| vb <<< 1 ||| vg <<< 2 ||| s <<< 5) >>> 0) &&& 1 = vw
    ∧ ((vw <<< 0 ||| vb <<< 1 ||| vg <<< 2 ||| s <<< 5) >>> 1) &&& 1 = vb
    ∧ ((vw <<< 0 ||| vb <<< 1 ||| vg <<< 2 ||| s <<< 5) >>> 2) &&& 7 = vg
    ∧ ((vw <<< 0 ||| vb <<< 1 ||| vg <<< 2 ||| s <<< 5) >>> 5) &&& 1 = s := by
  interval_cases vw <;> interval_cases vb <;> interval_cases vg <;> interval_cases s <;>
    decide

theorem linear_index_lt (w h x y : Nat) (hx : x < w) (hy : y < h) :
    x * h + y < w * h := by
  have h1 : x * h + y < (x + 1) * h := by
    rw [Nat.succ_mul]; omega
  have h2 : (x + 1) * h ≤ w * h := Nat.mul_le_mul_right h (by omega)
  omega

theorem linear_index_inj (h a b c d : Nat) (hb : b < h) (hd : d < h)
    (heq : a * h + b = c * h + d) : a = c ∧ b = d := by
  have h0 : 0 < h := by omega
  have hdiv : ∀ a b : Nat, b < h → (a * h + b) / h = a := by
    intro a b hb
    rw [Nat.mul_comm a h, Nat.mul_add_div h0, Nat.div_eq_of_lt hb, Nat.add_zero]
  have hmod : ∀ a b : Nat, b < h → (a * h + b) % h = b := by
    intro a b hb
    rw [Nat.mul_add_mod', Nat.mod_eq_of_lt hb]
  constructor
  · rw [← hdiv a b hb, ← hdiv c d hd, heq]
  · rw [← hmod a b hb, ← hmod c d hd, heq]

theorem applyStartLocs_length (h : Nat) :
    ∀ (locs : List (Nat × Nat)) (d : List Nat),
      (applyStartLocs h locs d).length = d.length := by
  intro locs
  induction locs with
  | nil => intro d; rfl
  | cons p locs ih =>
      intro d
      unfold applyStartLocs
      rw [List.foldl_cons]
      have := ih (d.set (p.1 * h + p.2) ((d.getD (p.1 * h + p.2) 0) ||| (1 <<< 5)))
      unfold applyStartLocs at this
      rw [this, List.length_set]

theorem applyStartLocs_getD (h : Nat) :
    ∀ (locs : List (Nat × Nat)) (d : List Nat) (idx : Nat),
      idx < d.length →
      (applyStartLocs h locs d).getD idx 0
        = (d.getD idx 0) ||| (if locs.any (fun p => p.1 * h + p.2 == idx) then 32 else 0) := by
  intro locs
  induction locs with
  | nil =>
      intro d idx _
      simp [applyStartLocs, Nat.or_zero]
  | cons p locs ih =>
      intro d idx hidx
      have hstep : applyStartLocs h (p :: locs) d
          = applyStartLocs h locs
              (d.set (p.1 * h + p.2) ((d.getD (p.1 * h + p.2) 0) ||| (1 <<< 5))) := by
        unfold applyStartLocs
        rw [List.foldl_cons]
      rw [hstep, ih _ idx (by rw [List.length_set]; exact hidx)]
      by_cases hkey : p.1 * h + p.2 = idx
      · subst hkey
        have hset : (d.set (p.1 * h + p.2) ((d.getD (p.1 * h + p.2) 0) ||| (1 <<< 5))).getD
            (p.1 * h + p.2) 0 = (d.getD (p.1 * h + p.2) 0) ||| 32 := by
          rw [List.getD_eq_getElem _ _ (by rw [List.length_set]; exact hidx),
            List.getElem_set (by rw [List.length_set]; exact hidx)]
          simp
        rw [hset]
        have hany : (p :: locs).any (fun q => q.1 * h + q.2 == p.1 * h + p.2) = true := by
          simp [List.any_cons]
        rw [hany, if_pos rfl]
        by_cases htail : locs.any (fun q => q.1 * h + q.2 == p.1 * h + p.2)
        · rw [if_pos htail, Nat.lor_assoc, Nat.or_self]
        · rw [if_neg htail, Nat.or_zero]
      · have hset : (d.set (p.1 * h + p.2) ((d.getD (p.1 * h + p.2) 0) ||| (1 <<< 5))).getD
            idx 0 = d.getD idx 0 := by
          rw [List.getD_eq_getElem _ _ (by rw [List.length_set]; exact hidx),
            List.getElem_set (by rw [List.length_set]; exact hidx), if_neg hkey,
            List.getD_eq_getElem _ _ hidx]
        rw [hset]
        have hany : (p :: locs).any (fun q => q.1 * h + q.2 == idx)
            = locs.any (fun q => q.1 * h + q.2 == idx) := by
          simp [List.any_cons, hkey]
        rw [hany]

theorem setMapData_getD (w h : Nat) (walk gh build : Nat → Nat) (slx sly : List Nat)
    (x y : Nat) (hx : x < w) (hy : y < h)
    (hsl : ∀ p ∈ slx.zip sly, p.1 < w ∧ p.2 < h) :
    (setMapData w h walk gh build slx sly).getD (x * h + y) 0
      = packTile (walk (x * h + y)) (build (x * h + y)) (gh (x * h + y))
        ||| (if (x, y) ∈ slx.zip sly then 32 else 0) := by
  have hxy : x * h + y < w * h := linear_index_lt w h x y hx hy
  have hbaselen : ((List.range (w * h)).map
      (fun idx => packTile (walk idx) (build idx) (gh idx))).length = w * h := by
    simp
  unfold setMapData
  rw [applyStartLocs_getD h _ _ _ (by rw [hbaselen]; exact hxy)]
  have hbase : ((List.range (w * h)).map
      (fun idx => packTile (walk idx) (build idx) (gh idx))).getD (x * h + y) 0
      = packTile (walk (x * h + y)) (build (x * h + y)) (gh (x * h + y)) := by
    rw [List.getD_eq_getElem _ _ (by rw [hbaselen]; exact hxy)]
    simp
  rw [hbase]
  congr 1
  have hiff : (slx.zip sly).any (fun p => p.1 * h + p.2 == x * h + y) = true
      ↔ (x, y) ∈ slx.zip sly := by
    rw [List.any_eq_true]
    constructor
    · rintro ⟨p, hp, hpe⟩
      have heq : p.1 * h + p.2 = x * h + y := by simpa using hpe
      obtain ⟨h1, h2⟩ := linear_index_inj h p.1 p.2 x y (hsl p hp).2 hy heq
      have : p = (x, y) := Prod.ext h1 h2
      rwa [this] at hp
    · intro hmem
      exact ⟨(x, y), hmem, by simp⟩
  by_cases hmem : (x, y) ∈ slx.zip sly
  · rw [if_pos hmem, if_pos (hiff.mpr hmem)]
  · rw [if_neg hmem, if_neg (fun hc => hmem (hiff.mp hc))]

theorem getMapField_getD (shift mask : Nat) (data : List Nat) (idx : Nat)
    (hidx : idx < data.length) :
    (getMapField shift mask data).getD idx 0 = (data.getD idx 0 >>> shift) &&& mask := by
  unfold getMapField
  rw [List.getD_eq_getElem _ _ (by simpa using hidx), List.getElem_map,
    List.getD_eq_getElem _ _ hidx]

theorem setMapData_length (w h : Nat) (walk gh build : Nat → Nat) (slx sly : List Nat) :
    (setMapData w h walk gh build slx sly).length = w * h := by
  unfold setMapData
  rw [applyStartLocs_length]
  simp

theorem packed_or_start (walk build gh : Nat) (c : Bool) :
    packTile walk build gh ||| (if c = true then 32 else 0)
      = (walk &&& 1) <<< 0 ||| (build &&& 1) <<< 1 ||| (gh &&& 7) <<< 2
        ||| (if c = true then 1 else 0) <<< 5 := by
  unfold packTile
  cases c <;> rfl

/-- C3: For every tile with walkable and buildable in `{0, 1}`,
ground height in `0..5`, and a start-location flag (membership of
`(x, y)` in the start-location vectors), decoding the packed map
produced by `setMap` (via `getMap`'s field extractions) returns exactly
the same tuple at every in-range `(x, y)`; and for any ground-height
input value (in particular one greater than 5), the stored and decoded
value is deterministically `value & 0b111`. -/
theorem C3_map_pack_roundtrip (w h : Nat) (walk gh build : Nat → Nat)
    (slx sly : List Nat) (x y : Nat) (hx : x < w) (hy : y < h)
    (hsl : ∀ p ∈ slx.zip sly, p.1 < w ∧ p.2 < h)
    (hw : walk (x * h + y) < 2) (hb : build (x * h + y) < 2) (hg : gh (x * h + y) < 6) :
    (getMapField 0 1 (setMapData w h walk gh build slx sly)).getD (x * h + y) 0
        = walk (x * h + y)
    ∧ (getMapField 1 1 (setMapData w h walk gh build slx sly)).getD (x * h + y) 0
        = build (x * h + y)
    ∧ (getMapField 2 7 (setMapData w h walk gh build slx sly)).getD (x * h + y) 0
        = gh (x * h + y)
    ∧ ((setMapData w h walk gh build slx sly).getD (x * h + y) 0 >>> 5) &&& 1
        = (if (x, y) ∈ slx.zip sly then 1 else 0)
    ∧ (∀ gh' : Nat → Nat,
        (getMapField 2 7 (setMapData w h walk gh' build slx sly)).getD (x * h + y) 0
          = gh' (x * h + y) &&& 7) := by
  have hxy : x * h + y < w * h := linear_index_lt w h x y hx hy
  have key : ∀ g' : Nat → Nat, ∀ shift mask : Nat,
      (getMapField shift mask (setMapData w h walk g' build slx sly)).getD (x * h + y) 0
        = ((((walk (x * h + y)) &&& 1) <<< 0 ||| ((build (x * h + y)) &&& 1) <<< 1
            ||| ((g' (x * h + y)) &&& 7) <<< 2
            ||| (if ((x, y) ∈ slx.zip sly : Bool) = true then 1 else 0) <<< 5)
            >>> shift) &&& mask := by
    intro g' shift mask
    rw [getMapField_getD shift mask _ _ (by rw [setMapData_length]; exact hxy),
      setMapData_getD w h walk g' build slx sly x y hx hy hsl]
    rw [show (if (x, y) ∈ slx.zip sly then 32 else 0)
        = (if ((x, y) ∈ slx.zip sly : Bool) = true then 32 else 0) by simp,
      packed_or_start]
  have hext := pack_extract (walk (x * h + y) &&& 1) (build (x * h + y) &&& 1)
    (gh (x * h + y) &&& 7) (if ((x, y) ∈ slx.zip sly : Bool) = true then 1 else 0)
    (by have := Nat.and_le_right (n := walk (x * h + y)) (m := 1); omega)
    (by have := Nat.and_le_right (n := build (x * h + y)) (m := 1); omega)
    (by have := Nat.and_le_right (n := gh (x * h + y)) (m := 7); omega)
    (by split <;> omega)
  refine ⟨?_, ?_, ?_, ?_, ?_⟩
  · rw [key gh 0 1, hext.1, and_one_of_lt_two _ hw]
  · rw [key gh 1 1, hext.2.1, and_one_of_lt_two _ hb]
  · rw [key gh 2 7, hext.2.2.1, and_seven_of_lt_eight _ (by omega)]
  · have hs := key gh 5 1
    rw [getMapField_getD 5 1 _ _ (by rw [setMapData_length]; exact hxy)] at hs
    rw [hs, hext.2.2.2]
    simp
  · intro gh'
    have hext' := pack_extract (walk (x * h + y) &&& 1) (build (x * h + y) &&& 1)
      (gh' (x * h + y) &&& 7) (if ((x, y) ∈ slx.zip sly : Bool) = true then 1 else 0)
      (by have := Nat.and_le_right (n := walk (x * h + y)) (m := 1); omega)
      (by have := Nat.and_le_right (n := build (x * h + y)) (m := 1); omega)
      (by have := Nat.and_le_right (n := gh' (x * h + y)) (m := 7); omega)
      (by split <;> omega)
    rw [key gh' 2 7, hext'.2.2.1]

/-- Witness for C3 on a concrete 2×2 map: tile `(1, 0)` (index
`1*2+0 = 2`) has walkability 1, ground height 5, buildability 0, and is
a start location. -/
theorem C3_map_pack_roundtrip_witness :
    (getMapField 0 1 (setMapData 2 2 (fun _ => 1) (fun _ => 5) (fun _ => 0) [1] [0])).getD
      (1 * 2 + 0) 0 = 1
    ∧ (getMapField 2 7 (setMapData 2 2 (fun _ => 1) (fun _ => 5) (fun _ => 0) [1] [0])).getD
      (1 * 2 + 0) 0 = 5
    ∧ ((setMapData 2 2 (fun _ => 1) (fun _ => 5) (fun _ => 0) [1] [0]).getD
      (1 * 2 + 0) 0 >>> 5) &&& 1 = 1 := by
  have hc := C3_map_pack_roundtrip 2 2 (fun _ => 1) (fun _ => 5) (fun _ => 0) [1] [0] 1 0
    (by decide) (by decide) (by decide) (by decide) (by decide) (by decide)
  exact ⟨hc.1, hc.2.2.1, by rw [hc.2.2.2.1]; decide⟩

/-! ## Claim C10: getMap's start-location vectors -/

theorem inner_fold_spec (h : Nat) (data : List Nat) (x : Nat) :
    ∀ (ys : List Nat) (acc : List Nat × List Nat),
      ys.foldl (fun acc y =>
          if startBit (data.getD (x * h + y) 0) then (acc.1 ++ [x], acc.2 ++ [y]) else acc)
        acc
        = (acc.1 ++ (ys.filterMap (fun y =>
              if startBit (data.getD (x * h + y) 0) then some (x, y) else none)).map Prod.fst,
           acc.2 ++ (ys.filterMap (fun y =>
              if startBit (data.getD (x * h + y) 0) then some (x, y) else none)).map Prod.snd) := by
  intro ys
  induction ys with
  | nil => intro acc; simp
  | cons y ys ih =>
      intro acc
      rw [List.foldl_cons, List.filterMap_cons]
      by_cases hq : startBit (data.getD (x * h + y) 0)
      · rw [if_pos hq]
        simp only [hq]
        rw [ih]
        simp
      · rw [if_neg hq]
        simp only [hq]
        rw [ih]
        simp

theorem outer_fold_spec (h : Nat) (data : List Nat) :
    ∀ (xs : List Nat) (acc : List Nat × List Nat),
      xs.foldl (fun acc x =>
          (List.range h).foldl (fun acc y =>
            if startBit (data.getD (x * h + y) 0) then (acc.1 ++ [x], acc.2 ++ [y]) else acc)
          acc)
        acc
        = (acc.1 ++ (xs.flatMap (fun x => (List.range h).filterMap (fun y =>
              if startBit (data.getD (x * h + y) 0) then some (x, y) else none))).map Prod.fst,
           acc.2 ++ (xs.flatMap (fun x => (List.range h).filterMap (fun y =>
              if startBit (data.getD (x * h + y) 0) then some (x, y) else none))).map Prod.snd) := by
  intro xs
  induction xs with
  | nil => intro acc; simp
  | cons x xs ih =>
      intro acc
      rw [List.foldl_cons, inner_fold_spec h data x (List.range h) acc, ih]
      simp [List.flatMap_cons]

theorem getMapStartLocs_eq (w h : Nat) (data : List Nat) (s0 s1 : List Nat) :
    getMapStartLocs w h data s0 s1
      = ((startPairs w h data).map Prod.fst, (startPairs w h data).map Prod.snd) := by
  unfold getMapStartLocs startPairs
  rw [outer_fold_spec h data (List.range w) (([] : List Nat), ([] : List Nat))]
  simp

theorem startPairs_mem (w h : Nat) (data : List Nat) (x y : Nat) :
    (x, y) ∈ startPairs w h data
      ↔ x < w ∧ y < h ∧ startBit (data.getD (x * h + y) 0) = true := by
  unfold startPairs
  simp only [List.mem_flatMap, List.mem_filterMap, List.mem_range]
  constructor
  · rintro ⟨x', hx', y', hy', hif⟩
    by_cases hq : startBit (data.getD (x' * h + y') 0)
    · rw [if_pos hq] at hif
      simp only [Option.some.injEq, Prod.mk.injEq] at hif
      obtain ⟨rfl, rfl⟩ := hif
      exact ⟨hx', hy', hq⟩
    · rw [if_neg hq] at hif
      exact absurd hif (by simp)
  · rintro ⟨hx, hy, hbit⟩
    exact ⟨x, hx, y, hy, by rw [if_pos hbit]⟩

theorem mem_startPairs_inner (h : Nat) (data : List Nat) (x : Nat) (p : Nat × Nat)
    (hp : p ∈ (List.range h).filterMap (fun y =>
        if startBit (data.getD (x * h + y) 0) then some (x, y) else none)) :
    p.1 = x := by
  rw [List.mem_filterMap] at hp
  obtain ⟨y, _, hif⟩ := hp
  by_cases hq : startBit (data.getD (x * h + y) 0)
  · rw [if_pos hq] at hif
    cases hif
    rfl
  · rw [if_neg hq] at hif
    exact absurd hif (by simp)

theorem startPairs_pairwise (w h : Nat) (data : List Nat) :
    (startPairs w h data).Pairwise
      (fun p q => p.1 < q.1 ∨ (p.1 = q.1 ∧ p.2 < q.2)) := by
  unfold startPairs
  rw [List.flatMap_def, List.pairwise_flatten]
  constructor
  · intro l hl
    simp only [List.mem_map] at hl
    obtain ⟨x, _, rfl⟩ := hl
    refine (List.pairwise_lt_range h).filterMap _ ?_
    intro a b hab c hc d hd
    by_cases hqa : startBit (data.getD (x * h + a) 0)
    · rw [if_pos hqa] at hc
      by_cases hqb : startBit (data.getD (x * h + b) 0)
      · rw [if_pos hqb] at hd
        cases hc; cases hd
        exact Or.inr ⟨rfl, hab⟩
      · rw [if_neg hqb] at hd
        exact absurd hd (by simp)
    · rw [if_neg hqa] at hc
      exact absurd hc (by simp)
  · refine List.Pairwise.map _ ?_ (List.pairwise_lt_range w)
    intro a b hab p hp q hq
    rw [mem_startPairs_inner h data a p hp, mem_startPairs_inner h data b q hq]
    exact Or.inl hab

/-- C10: getMap clears the start-location output vectors before
populating them, so after any call the two vectors contain exactly the
`(x, y)` coordinates of tiles whose start-location bit is set in the
current map, in increasing-x-then-increasing-y traversal order,
independent of the vectors' contents before the call; the two vectors
always have equal length. -/
theorem C10_getMap_startlocs (w h : Nat) (data : List Nat)
    (s0 s1 s0' s1' : List Nat) (x y : Nat) :
    getMapStartLocs w h data s0 s1 = getMapStartLocs w h data s0' s1'
    ∧ (getMapStartLocs w h data s0 s1).1.zip (getMapStartLocs w h data s0 s1).2
        = startPairs w h data
    ∧ (getMapStartLocs w h data s0 s1).1.length
        = (getMapStartLocs w h data s0 s1).2.length
    ∧ ((x, y) ∈ startPairs w h data
        ↔ x < w ∧ y < h ∧ startBit (data.getD (x * h + y) 0) = true)
    ∧ (startPairs w h data).Pairwise
        (fun p q => p.1 < q.1 ∨ (p.1 = q.1 ∧ p.2 < q.2)) := by
  refine ⟨?_, ?_, ?_, startPairs_mem w h data x y, startPairs_pairwise w h data⟩
  · rw [getMapStartLocs_eq, getMapStartLocs_eq]
  · rw [getMapStartLocs_eq]
    simp [List.zip_map']
  · rw [getMapStartLocs_eq]
    simp

end TorchcraftReplayer
